import Mathlib

/-!
Shallow embedding of the File-Cross-Check reconciliation engine
(`src/file-cross-checker-express/server.js`).

The server file contains two concatenated Express applications:
the primary variant (header negotiation, `String(...)`-coerced lookup set,
lines 96-502) and a historical variant (first-column key, typed `Set`
membership, lines 636-885).  The definitions below transliterate the
pure data transformations of both: ingestion of structured grids and plain
text, comparison-key resolution, lookup-set construction, and the
partition loop of the `POST /cross-check` handler.
-/

namespace FileCrossCheck

/-- A JavaScript scalar value as it appears in an ingested cell:
`undefined`, `null`, a string, an integral number, or a boolean.
(Date cells are normalized to strings by `formatDate` at ingestion time,
so they never reach the reconciliation engine as dates.) -/
inductive Value where
  | undefined : Value
  | null : Value
  | str (s : String) : Value
  | num (n : Int) : Value
  | bool (b : Bool) : Value
deriving DecidableEq, Repr

/-- JavaScript `String(value)` coercion, as used when inserting into and
probing the lookup set in the primary variant (`String(value)`,
`String(value1)`). -/
def Value.toStr : Value → String
  | .undefined => "undefined"
  | .null => "null"
  | .str s => s
  | .num n => toString n
  | .bool b => if b then "true" else "false"

/-- The guard `value !== undefined && value !== null && value !== ""`
used both for lookup-set insertion and in the partition loop.  The
comparisons are strict (`!==`), so only the string `""` is an empty
string; the number `0` and `false` pass the guard. -/
def Value.nonEmpty : Value → Bool
  | .undefined => false
  | .null => false
  | .str s => s != ""
  | .num _ => true
  | .bool _ => true

/-- A structured record: the JavaScript object built by
`headers.forEach((header, index) => { obj[header] = row[index]; })`,
modelled as an association list in property-insertion order. -/
abbrev Obj := List (String × Value)

/-- JavaScript property read `o[k]`: the value bound to `k`, or
`undefined` when the property is absent. -/
def objGet (o : Obj) (k : String) : Value :=
  match o.find? (fun p => p.1 == k) with
  | some p => p.2
  | none => .undefined

/-- JavaScript property write `o[k] = v`: overwrite an existing binding
in place (keeping insertion order), else append a new one. -/
def setField (o : Obj) (k : String) (v : Value) : Obj :=
  if o.any (fun p => p.1 == k) then
    o.map (fun p => if p.1 == k then (k, v) else p)
  else
    o ++ [(k, v)]

/-- Array read `row[index]` inside the record-building loop: the cell at
that position, or `undefined` past the end of a short row. -/
def cellAt (row : List Value) (i : Nat) : Value :=
  (row.get? i).getD .undefined

/-- The body of `headers.forEach((header, index) => ...)`: walk the header
list with its running index, assigning `obj[header] = row[index]`. -/
def buildRowAux (row : List Value) : List String → Nat → Obj → Obj
  | [], _, o => o
  | h :: hs, i, o => buildRowAux row hs (i + 1) (setField o h (cellAt row i))

/-- Build one record from the (already cleaned) header list and one raw
data row, as in `readFileContent`'s `rows = rawData.slice(1).map(...)`. -/
def buildRow (headers : List String) (row : List Value) : Obj :=
  buildRowAux row headers 0 []

/-- ASCII whitespace recognized by the JavaScript `String.prototype.trim`
used on header cells. -/
def jsWhite (c : Char) : Bool :=
  c == ' ' || c == '\t' || c == '\n' || c == '\r' || c == '\x0b' || c == '\x0c'

/-- `String.prototype.trim` on the character list: drop whitespace from
the front and from the back. -/
def jsTrimL (l : List Char) : List Char :=
  ((l.dropWhile jsWhite).reverse.dropWhile jsWhite).reverse

/-- `String.prototype.trim`. -/
def jsTrim (s : String) : String :=
  ⟨jsTrimL s.data⟩

/-- JavaScript truthiness on ingested cell values, as tested by
`h || ""` in the header cleanup. -/
def Value.falsy : Value → Bool
  | .undefined => true
  | .null => true
  | .str s => s == ""
  | .num n => n == 0
  | .bool b => !b

/-- One header cell's text: `String(h || "").trim()`. -/
def headerText (v : Value) : String :=
  jsTrim (if v.falsy then "" else v.toStr)

/-- Header cleanup of the primary `readFileContent`:
`rawData[0].map((h) => String(h || "").trim()).filter((h) => h !== "")`. -/
def cleanHeaders (rawHeader : List Value) : List String :=
  (rawHeader.map headerText).filter (fun h => h != "")

/-- An ingested table: `type` is `'structured'` (headers plus record
rows) or `'plain_text'` (an ordered list of lines). -/
inductive Content where
  | structured (headers : List String) (rows : List Obj) : Content
  | plainText (lines : List String) : Content
deriving DecidableEq, Repr

/-- The structured branch of the primary `readFileContent`, applied to the
2-D grid produced by `sheet_to_json(..., { header: 1 })`: row 0 becomes the
cleaned header list, every later row one record. -/
def ingestStructured (grid : List (List Value)) : Content :=
  match grid with
  | [] => .structured [] []
  | hdr :: rest => .structured (cleanHeaders hdr) (rest.map (buildRow (cleanHeaders hdr)))

/-- The plain-text branch of `readFileContent`, applied to the raw lines
from `content.split(/\r?\n/)`: keep lines whose trim is nonempty. -/
def ingestPlainText (rawLines : List String) : Content :=
  .plainText (rawLines.filter (fun l => jsTrim l != ""))

/-- One element of `data1` / `data2`: a record object for structured
files, a line string for plain text. -/
inductive Item where
  | row (o : Obj) : Item
  | line (s : String) : Item
deriving DecidableEq, Repr

/-- The data array of an ingested table. -/
def Content.items : Content → List Item
  | .structured _ rows => rows.map .row
  | .plainText lines => lines.map .line

/-- `data.length`. -/
def Content.size : Content → Nat
  | .structured _ rows => rows.length
  | .plainText lines => lines.length

/-- `fileContent.type === "structured"`. -/
def Content.isStructured : Content → Bool
  | .structured _ _ => true
  | .plainText _ => false

/-- `fileContent.headers` (empty for plain text). -/
def Content.headersOf : Content → List String
  | .structured headers _ => headers
  | .plainText _ => []

/-- The value an item contributes at the comparison key: for structured
files `item[actualComparisonColumn]`, for plain text the line itself
(`value1 = item1`). -/
def itemValue (key : String) : Item → Value
  | .row o => objGet o key
  | .line s => .str s

/-- `Set.prototype.add` on a set of strings, modelled on a duplicate-free
list: insert at the back unless already present. -/
def addUnique (l : List String) (s : String) : List String :=
  if l.contains s then l else l ++ [s]

/-- One iteration of the `data2.forEach` building `values2Set` in the
primary variant: skip values failing the non-empty guard, insert
`String(value)`. -/
def lookupStep (key : String) (acc : List String) (it : Item) : List String :=
  let v := itemValue key it
  if v.nonEmpty then addUnique acc v.toStr else acc

/-- The lookup set `values2Set` of the primary variant, built from every
record of File B at the comparison key. -/
def lookupSet (b : Content) (key : String) : List String :=
  b.items.foldl (lookupStep key) []

/-- One iteration of the primary partition loop: a non-empty value is
routed by `values2Set.has(String(value1))`, an empty one goes straight
to `missingInFile2`. -/
def stepFn (set2 : List String) (key : String) (acc : List Item × List Item)
    (it : Item) : List Item × List Item :=
  let v := itemValue key it
  if v.nonEmpty then
    if set2.contains v.toStr then (acc.1 ++ [it], acc.2) else (acc.1, acc.2 ++ [it])
  else
    (acc.1, acc.2 ++ [it])

/-- The primary partition loop over `data1`, yielding
`(foundInFile2, missingInFile2)`. -/
def partitionLoop (set2 : List String) (key : String) (data1 : List Item) :
    List Item × List Item :=
  data1.foldl (stepFn set2 key) ([], [])

/-- The success payload of the `/cross-check` response:
`foundCount`, `missingCount`, `totalFile1Rows`, `comparisonColumn`, and
the two partitions the counts and CSV artifacts are computed from. -/
structure CheckOk where
  found : List Item
  missing : List Item
  foundCount : Nat
  missingCount : Nat
  totalRows : Nat
  comparisonColumn : String
deriving DecidableEq, Repr

/-- Outcome of the `/cross-check` handler after both files ingested:
either the 400 response `Selected column ... not found in File A headers`
or a success payload. -/
inductive CheckResult where
  | keyError (requested : Option String) : CheckResult
  | ok (r : CheckOk) : CheckResult
deriving DecidableEq, Repr

/-- Resolution of `actualComparisonColumn`: when both files are
structured the requested column must be among File A's headers
(`fileAContent.headers.includes(actualComparisonColumn)`), else the 400
response fires; otherwise the column is forced to `"Line Content"`.
`none` for the requested column models an absent `selectedColumn` form
field, for which `includes(undefined)` is false. -/
def resolveKey (a b : Content) (selectedColumn : Option String) : Option String :=
  if a.isStructured && b.isStructured then
    match selectedColumn with
    | some c => if a.headersOf.contains c then some c else none
    | none => none
  else
    some "Line Content"

/-- The primary `/cross-check` handler from key resolution onward:
resolve the comparison column, apply the empty-A and empty-B
short-circuits (in that order, both after key resolution), then build the
lookup set and run the partition loop. -/
def crossCheck (a b : Content) (selectedColumn : Option String) : CheckResult :=
  match resolveKey a b selectedColumn with
  | none => .keyError selectedColumn
  | some key =>
    if a.size = 0 then
      .ok ⟨[], [], 0, 0, 0, key⟩
    else if b.size = 0 then
      .ok ⟨[], [], 0, 0, a.size, key⟩
    else
      let fm := partitionLoop (lookupSet b key) key a.items
      .ok ⟨fm.1, fm.2, fm.1.length, fm.2.length, a.size, key⟩

/-- One iteration of the `data2.forEach` building `values2Set` in the
historical variant (`values2Set.add(value)`): the raw value is inserted
without string coercion. -/
def histLookupStep (key : String) (acc : List Value) (it : Item) : List Value :=
  let v := itemValue key it
  if v.nonEmpty then (if acc.contains v then acc else acc ++ [v]) else acc

/-- The lookup set of the historical variant: raw values, so membership
is JavaScript `Set` (SameValueZero, i.e. typed) equality. -/
def histLookupSet (b : Content) (key : String) : List Value :=
  b.items.foldl (histLookupStep key) []

/-- One iteration of the historical partition loop: membership test
`values2Set.has(value1)` on the raw value. -/
def histStepFn (set2 : List Value) (key : String) (acc : List Item × List Item)
    (it : Item) : List Item × List Item :=
  let v := itemValue key it
  if v.nonEmpty then
    if set2.contains v then (acc.1 ++ [it], acc.2) else (acc.1, acc.2 ++ [it])
  else
    (acc.1, acc.2 ++ [it])

/-- The historical partition loop over `data1`. -/
def histPartitionLoop (set2 : List Value) (key : String) (data1 : List Item) :
    List Item × List Item :=
  data1.foldl (histStepFn set2 key) ([], [])

/-- Partition logic of the primary variant, given two ingested tables and
the already-resolved comparison key. -/
def primPartition (a b : Content) (key : String) : List Item × List Item :=
  partitionLoop (lookupSet b key) key a.items

/-- Partition logic of the historical variant, given two ingested tables
and the already-resolved comparison key. -/
def histPartition (a b : Content) (key : String) : List Item × List Item :=
  histPartitionLoop (histLookupSet b key) key a.items

/-! ### Basic bridging lemmas -/

theorem contains_iff_mem {α : Type} [BEq α] [LawfulBEq α] (l : List α) (a : α) :
    l.contains a = true ↔ a ∈ l := by
  rw [List.contains_iff_exists_mem_beq]
  constructor
  · rintro ⟨b, hb, hab⟩
    rwa [eq_of_beq hab]
  · intro h
    exact ⟨a, h, by simp⟩

/-- The predicate deciding whether the primary partition loop routes an
item to `foundInFile2`. -/
def foundPred (set2 : List String) (key : String) (it : Item) : Bool :=
  (itemValue key it).nonEmpty && set2.contains (itemValue key it).toStr

theorem stepFn_eq_if (set2 : List String) (key : String) (acc : List Item × List Item)
    (it : Item) :
    stepFn set2 key acc it =
      if foundPred set2 key it then (acc.1 ++ [it], acc.2) else (acc.1, acc.2 ++ [it]) := by
  simp only [stepFn, foundPred]
  by_cases hv : (itemValue key it).nonEmpty <;>
    by_cases hc : set2.contains (itemValue key it).toStr <;>
      simp [hv, hc]

theorem foldl_stepFn (set2 : List String) (key : String) :
    ∀ (data : List Item) (f m : List Item),
      data.foldl (stepFn set2 key) (f, m) =
        (f ++ data.filter (foundPred set2 key),
         m ++ data.filter (fun it => !foundPred set2 key it)) := by
  intro data
  induction data with
  | nil => intro f m; simp
  | cons x xs ih =>
    intro f m
    rw [List.foldl_cons, stepFn_eq_if]
    by_cases h : foundPred set2 key x <;>
      simp only [h, if_true, if_false] <;>
      rw [ih] <;>
      simp [List.filter_cons, h]

theorem partitionLoop_eq (set2 : List String) (key : String) (data : List Item) :
    partitionLoop set2 key data =
      (data.filter (foundPred set2 key),
       data.filter (fun it => !foundPred set2 key it)) := by
  have h := foldl_stepFn set2 key data [] []
  simpa [partitionLoop] using h

theorem filter_length_total {α : Type} (p : α → Bool) (l : List α) :
    (l.filter p).length + (l.filter (fun x => !p x)).length = l.length := by
  induction l with
  | nil => rfl
  | cons x xs ih =>
    by_cases h : p x <;> simp [List.filter_cons, h] <;> omega

theorem mem_addUnique (l : List String) (s t : String) :
    t ∈ addUnique l s ↔ t ∈ l ∨ t = s := by
  by_cases h : l.contains s
  · have hs : s ∈ l := (contains_iff_mem l s).mp h
    simp only [addUnique, h, if_true]
    constructor
    · exact Or.inl
    · rintro (h' | rfl)
      · exact h'
      · exact hs
  · have hs : s ∉ l := fun hmem => h ((contains_iff_mem l s).mpr hmem)
    simp [addUnique, h, hs]

theorem mem_foldl_lookupStep (key : String) :
    ∀ (items : List Item) (acc : List String) (s : String),
      (s ∈ items.foldl (lookupStep key) acc ↔
        s ∈ acc ∨ ∃ it, it ∈ items ∧ (itemValue key it).nonEmpty = true ∧
          (itemValue key it).toStr = s) := by
  intro items
  induction items with
  | nil => intro acc s; simp
  | cons x xs ih =>
    intro acc s
    rw [List.foldl_cons]
    by_cases hv : (itemValue key x).nonEmpty
    · have hstep : lookupStep key acc x = addUnique acc (itemValue key x).toStr := by
        simp [lookupStep, hv]
      rw [hstep, ih, mem_addUnique]
      constructor
      · rintro ((h' | rfl) | ⟨it, hit, h1, h2⟩)
        · exact Or.inl h'
        · exact Or.inr ⟨x, List.mem_cons_self _ _, hv, rfl⟩
        · exact Or.inr ⟨it, List.mem_cons_of_mem _ hit, h1, h2⟩
      · rintro (h' | ⟨it, hit, h1, h2⟩)
        · exact Or.inl (Or.inl h')
        · rcases List.mem_cons.mp hit with rfl | hit'
          · exact Or.inl (Or.inr h2.symm)
          · exact Or.inr ⟨it, hit', h1, h2⟩
    · have hstep : lookupStep key acc x = acc := by
        simp [lookupStep, hv]
      rw [hstep, ih]
      constructor
      · rintro (h' | ⟨it, hit, h1, h2⟩)
        · exact Or.inl h'
        · exact Or.inr ⟨it, List.mem_cons_of_mem _ hit, h1, h2⟩
      · rintro (h' | ⟨it, hit, h1, h2⟩)
        · exact Or.inl h'
        · rcases List.mem_cons.mp hit with rfl | hit'
          · exact absurd h1 (by simpa using hv)
          · exact Or.inr ⟨it, hit', h1, h2⟩

theorem mem_lookupSet (b : Content) (key : String) (s : String) :
    s ∈ lookupSet b key ↔
      ∃ it, it ∈ b.items ∧ (itemValue key it).nonEmpty = true ∧
        (itemValue key it).toStr = s := by
  rw [lookupSet, mem_foldl_lookupStep]
  simp

/-! ### A stringified value is never empty -/

theorem toDigitsCore_length_le (b : Nat) :
    ∀ (f n : Nat) (ds : List Char), ds.length ≤ (Nat.toDigitsCore b f n ds).length := by
  intro f
  induction f with
  | zero => intro n ds; simp [Nat.toDigitsCore]
  | succ f ih =>
    intro n ds
    simp only [Nat.toDigitsCore]
    by_cases h : n / b = 0
    · simp [h]
    · simp only [h, if_false]
      calc ds.length ≤ (Nat.digitChar (n % b) :: ds).length := by simp
        _ ≤ _ := ih _ _

theorem toDigits_ne_nil (b n : Nat) : Nat.toDigits b n ≠ [] := by
  simp only [Nat.toDigits, Nat.toDigitsCore]
  by_cases h : n / b = 0
  · simp [h]
  · simp only [h, if_false]
    intro hcontra
    have hle := toDigitsCore_length_le b n (n / b) [Nat.digitChar (n % b)]
    rw [hcontra] at hle
    simp at hle

theorem natRepr_ne_empty (n : Nat) : Nat.repr n ≠ "" := by
  simp only [Nat.repr, List.asString]
  intro h
  have hdata : Nat.toDigits 10 n = [] := by
    have := congrArg String.data h
    simpa using this
  exact toDigits_ne_nil 10 n hdata

theorem intToString_ne_empty (n : Int) : toString n ≠ "" := by
  cases n with
  | ofNat m =>
    show Int.repr (.ofNat m) ≠ ""
    simpa [Int.repr] using natRepr_ne_empty m
  | negSucc m =>
    show Int.repr (.negSucc m) ≠ ""
    simp only [Int.repr]
    intro h
    have := congrArg String.data h
    simp [String.data_append] at this

theorem toStr_ne_empty (v : Value) (h : v.nonEmpty = true) : v.toStr ≠ "" := by
  cases v with
  | undefined => simp [Value.nonEmpty] at h
  | null => simp [Value.nonEmpty] at h
  | str s =>
    simp only [Value.nonEmpty, bne_iff_ne, ne_eq] at h
    simpa [Value.toStr] using h
  | num n => exact intToString_ne_empty n
  | bool b => cases b <;> simp [Value.toStr]

theorem empty_not_mem_lookupSet (b : Content) (key : String) :
    "" ∉ lookupSet b key := by
  rw [mem_lookupSet]
  rintro ⟨it, _, hne, heq⟩
  exact toStr_ne_empty _ hne heq

/-! ### Trimming is idempotent -/

theorem dropWhile_dropWhile {α : Type} (p : α → Bool) (l : List α) :
    (l.dropWhile p).dropWhile p = l.dropWhile p := by
  induction l with
  | nil => rfl
  | cons x xs ih =>
    by_cases h : p x
    · simpa [List.dropWhile_cons, h] using ih
    · simp [List.dropWhile_cons, h]

theorem dropWhile_eq_self_of_prefix {α : Type} (p : α → Bool) {r A : List α}
    (hpre : r <+: A) (hA : A.dropWhile p = A) : r.dropWhile p = r := by
  cases r with
  | nil => rfl
  | cons x t =>
    obtain ⟨s, hs⟩ := hpre
    cases A with
    | nil => simp at hs
    | cons y u =>
      rw [List.cons_append] at hs
      injection hs with h1 h2
      by_cases hp : p y
      · rw [List.dropWhile_cons_of_pos hp] at hA
        have hsub : (u.dropWhile p).length ≤ u.length :=
          (List.dropWhile_suffix p).sublist.length_le
        rw [hA] at hsub
        simp at hsub
      · rw [List.dropWhile_cons_of_neg (h1 ▸ hp)]

theorem jsTrimL_idem (l : List Char) : jsTrimL (jsTrimL l) = jsTrimL l := by
  have hA : (l.dropWhile jsWhite).dropWhile jsWhite = l.dropWhile jsWhite :=
    dropWhile_dropWhile jsWhite l
  have hB : ((l.dropWhile jsWhite).reverse.dropWhile jsWhite).dropWhile jsWhite =
      (l.dropWhile jsWhite).reverse.dropWhile jsWhite :=
    dropWhile_dropWhile jsWhite (l.dropWhile jsWhite).reverse
  have hpre : ((l.dropWhile jsWhite).reverse.dropWhile jsWhite).reverse <+:
      l.dropWhile jsWhite := by
    have h1 : (l.dropWhile jsWhite).reverse.dropWhile jsWhite <:+
        (l.dropWhile jsWhite).reverse := List.dropWhile_suffix _
    have h2 := List.reverse_prefix.mpr h1
    rwa [List.reverse_reverse] at h2
  have hr : (((l.dropWhile jsWhite).reverse.dropWhile jsWhite).reverse).dropWhile jsWhite =
      ((l.dropWhile jsWhite).reverse.dropWhile jsWhite).reverse :=
    dropWhile_eq_self_of_prefix jsWhite hpre hA
  show (((jsTrimL l).dropWhile jsWhite).reverse.dropWhile jsWhite).reverse = jsTrimL l
  rw [show jsTrimL l = ((l.dropWhile jsWhite).reverse.dropWhile jsWhite).reverse from rfl,
    hr, List.reverse_reverse, hB]

theorem jsTrim_idem (s : String) : jsTrim (jsTrim s) = jsTrim s :=
  congrArg String.mk (jsTrimL_idem s.data)

/-! ### Records only hold keys from the header list -/

theorem setField_keys (S : List String) (o : Obj) (k : String) (v : Value)
    (ho : ∀ p ∈ o, p.1 ∈ S) (hk : k ∈ S) :
    ∀ q ∈ setField o k v, q.1 ∈ S := by
  intro q hq
  by_cases hc : o.any (fun p => p.1 == k)
  · simp only [setField, hc, if_true] at hq
    rcases List.mem_map.mp hq with ⟨p, hp, hpq⟩
    by_cases hpk : p.1 == k
    · rw [if_pos hpk] at hpq
      rw [← hpq]
      exact hk
    · rw [if_neg hpk] at hpq
      rw [← hpq]
      exact ho p hp
  · simp only [setField, hc, if_false] at hq
    rcases List.mem_append.mp hq with hq' | hq'
    · exact ho q hq'
    · rw [List.mem_singleton.mp hq']
      exact hk

theorem buildRowAux_keys (row : List Value) (S : List String) :
    ∀ (hs : List String) (i : Nat) (o : Obj),
      (∀ p ∈ o, p.1 ∈ S) → (∀ h ∈ hs, h ∈ S) →
      ∀ p ∈ buildRowAux row hs i o, p.1 ∈ S := by
  intro hs
  induction hs with
  | nil => intro i o ho _ p hp; exact ho p hp
  | cons h' tl ih =>
    intro i o ho hhs p hp
    exact ih (i + 1) (setField o h' (cellAt row i))
      (setField_keys S o h' (cellAt row i) ho (hhs h' (List.mem_cons_self _ _)))
      (fun h hh => hhs h (List.mem_cons_of_mem _ hh)) p hp

theorem objGet_buildRow_of_not_mem (headers : List String) (row : List Value) (k : String)
    (hk : k ∉ headers) : objGet (buildRow headers row) k = .undefined := by
  have hkeys : ∀ p ∈ buildRow headers row, p.1 ∈ headers :=
    buildRowAux_keys row headers headers 0 [] (by simp) (fun h hh => hh)
  have hnone : (buildRow headers row).find? (fun p => p.1 == k) = none := by
    rw [List.find?_eq_none]
    intro p hp
    simp only [beq_iff_eq]
    intro hcontra
    exact hk (hcontra ▸ hkeys p hp)
  simp [objGet, hnone]

theorem foldl_lookupStep_id (key : String) :
    ∀ (items : List Item) (acc : List String),
      (∀ it ∈ items, (itemValue key it).nonEmpty = false) →
      items.foldl (lookupStep key) acc = acc := by
  intro items
  induction items with
  | nil => intro acc _; rfl
  | cons x xs ih =>
    intro acc h
    rw [List.foldl_cons]
    have hx := h x (List.mem_cons_self _ _)
    have hstep : lookupStep key acc x = acc := by simp [lookupStep, hx]
    rw [hstep]
    exact ih acc (fun it hit => h it (List.mem_cons_of_mem _ hit))

/-! ### Case analysis of a successful cross-check -/

theorem crossCheck_ok_elim (a b : Content) (sel : Option String) (r : CheckOk)
    (h : crossCheck a b sel = .ok r) :
    ∃ key, resolveKey a b sel = some key ∧ r.comparisonColumn = key ∧
      ((a.size = 0 ∧ r = ⟨[], [], 0, 0, 0, key⟩) ∨
       (a.size ≠ 0 ∧ b.size = 0 ∧ r = ⟨[], [], 0, 0, a.size, key⟩) ∨
       (a.size ≠ 0 ∧ b.size ≠ 0 ∧
         r = ⟨a.items.filter (foundPred (lookupSet b key) key),
              a.items.filter (fun it => !foundPred (lookupSet b key) key it),
              (a.items.filter (foundPred (lookupSet b key) key)).length,
              (a.items.filter (fun it => !foundPred (lookupSet b key) key it)).length,
              a.size, key⟩)) := by
  unfold crossCheck at h
  split at h
  · exact absurd h (by simp)
  next key hres =>
    by_cases ha : a.size = 0
    · rw [if_pos ha] at h
      injection h with h'
      exact ⟨key, hres, by rw [← h'], Or.inl ⟨ha, h'.symm⟩⟩
    · rw [if_neg ha] at h
      by_cases hb : b.size = 0
      · rw [if_pos hb] at h
        injection h with h'
        exact ⟨key, hres, by rw [← h'], Or.inr (Or.inl ⟨ha, hb, h'.symm⟩)⟩
      · rw [if_neg hb] at h
        simp only [partitionLoop_eq] at h
        injection h with h'
        exact ⟨key, hres, by rw [← h'], Or.inr (Or.inr ⟨ha, hb, h'.symm⟩)⟩

theorem items_length (a : Content) : a.items.length = a.size := by
  cases a <;> simp [Content.items, Content.size]

theorem items_eq_nil_of_size (a : Content) (h : a.size = 0) : a.items = [] := by
  have hl := items_length a
  rw [h] at hl
  exact List.length_eq_zero.mp hl

theorem resolveKey_structured (ha : List String) (ra : List Obj) (hb : List String)
    (rb : List Obj) (c : String) :
    resolveKey (.structured ha ra) (.structured hb rb) (some c) =
      if ha.contains c then some c else none := rfl

theorem resolveKey_structured_none (ha : List String) (ra : List Obj) (hb : List String)
    (rb : List Obj) :
    resolveKey (.structured ha ra) (.structured hb rb) none = none := rfl

theorem resolveKey_plaintext_left (lines : List String) (b : Content) (sel : Option String) :
    resolveKey (.plainText lines) b sel = some "Line Content" := rfl

theorem resolveKey_plaintext_right (a : Content) (lines : List String) (sel : Option String) :
    resolveKey a (.plainText lines) sel = some "Line Content" := by
  cases a <;> rfl

theorem value_emptyish_nonEmpty_false (v : Value)
    (h : v = .undefined ∨ v = .null ∨ v = .str "") : v.nonEmpty = false := by
  rcases h with rfl | rfl | rfl <;> decide

/-- C1: when File A and File B each have at least one row and key
resolution has succeeded (the handler produced a success payload), the
partition is total and exclusive: the two counts sum to `totalFile1Rows`,
which equals File A's row count, and every File A record is a member of
exactly one of the two output sequences. -/
theorem crossCheck_partition_total (a b : Content) (sel : Option String) (r : CheckOk)
    (h : crossCheck a b sel = .ok r) (hA : a.size ≠ 0) (hB : b.size ≠ 0) :
    r.foundCount + r.missingCount = r.totalRows ∧ r.totalRows = a.size ∧
      ∀ it ∈ a.items, (it ∈ r.found ∧ it ∉ r.missing) ∨ (it ∉ r.found ∧ it ∈ r.missing) := by
  rcases crossCheck_ok_elim a b sel r h with ⟨key, hres, hcol, hcase⟩
  rcases hcase with ⟨ha0, _⟩ | ⟨_, hb0, _⟩ | ⟨_, _, hr⟩
  · exact absurd ha0 hA
  · exact absurd hb0 hB
  · subst hr
    refine ⟨?_, rfl, ?_⟩
    · show (a.items.filter _).length + (a.items.filter _).length = a.size
      rw [← items_length a]
      exact filter_length_total _ _
    · intro it hit
      by_cases hp : foundPred (lookupSet b key) key it
      · refine Or.inl ⟨List.mem_filter.mpr ⟨hit, hp⟩, fun hmem => ?_⟩
        have h2 := (List.mem_filter.mp hmem).2
        simp [hp] at h2
      · refine Or.inr ⟨fun hmem => hp (List.mem_filter.mp hmem).2, ?_⟩
        exact List.mem_filter.mpr ⟨hit, by simp [hp]⟩

theorem crossCheck_partition_total_witness :
    (1 : Nat) + 1 = 2 ∧ (2 : Nat) = (Content.plainText ["foo", "bar"]).size ∧
      ∀ it ∈ (Content.plainText ["foo", "bar"]).items,
        (it ∈ [Item.line "bar"] ∧ it ∉ [Item.line "foo"]) ∨
        (it ∉ [Item.line "bar"] ∧ it ∈ [Item.line "foo"]) :=
  crossCheck_partition_total (.plainText ["foo", "bar"]) (.plainText ["bar"]) none
    ⟨[.line "bar"], [.line "foo"], 1, 1, 2, "Line Content"⟩ rfl (by decide) (by decide)

/-- C5: when File B ingests to zero rows and File A does not (and key
resolution has succeeded), the handler returns a success payload with
both partitions empty and zero counts, not with File A's rows reported
missing. -/
theorem crossCheck_emptyB (a b : Content) (sel : Option String) (r : CheckOk)
    (h : crossCheck a b sel = .ok r) (hA : a.size ≠ 0) (hB : b.size = 0) :
    r.found = [] ∧ r.missing = [] ∧ r.foundCount = 0 ∧ r.missingCount = 0 ∧
      r.totalRows = a.size := by
  rcases crossCheck_ok_elim a b sel r h with ⟨key, _, _, hcase⟩
  rcases hcase with ⟨ha0, _⟩ | ⟨_, _, hr⟩ | ⟨_, hb0, _⟩
  · exact absurd ha0 hA
  · subst hr
    exact ⟨rfl, rfl, rfl, rfl, rfl⟩
  · exact absurd hB hb0

theorem crossCheck_emptyB_witness :
    ([] : List Item) = [] ∧ ([] : List Item) = [] ∧ (0 : Nat) = 0 ∧ (0 : Nat) = 0 ∧
      (1 : Nat) = (Content.plainText ["foo"]).size :=
  crossCheck_emptyB (.plainText ["foo"]) (.plainText []) none
    ⟨[], [], 0, 0, 1, "Line Content"⟩ rfl (by decide) (by decide)

/-- C8: both output sequences preserve File A's row order: each is a
subsequence of File A's data array. -/
theorem crossCheck_order (a b : Content) (sel : Option String) (r : CheckOk)
    (h : crossCheck a b sel = .ok r) :
    r.found.Sublist a.items ∧ r.missing.Sublist a.items := by
  rcases crossCheck_ok_elim a b sel r h with ⟨key, _, _, hcase⟩
  rcases hcase with ⟨_, hr⟩ | ⟨_, _, hr⟩ | ⟨_, _, hr⟩ <;> subst hr
  · exact ⟨List.nil_sublist _, List.nil_sublist _⟩
  · exact ⟨List.nil_sublist _, List.nil_sublist _⟩
  · exact ⟨List.filter_sublist _, List.filter_sublist _⟩

theorem crossCheck_order_witness :
    List.Sublist [Item.line "bar"] (Content.plainText ["foo", "bar"]).items ∧
      List.Sublist [Item.line "foo"] (Content.plainText ["foo", "bar"]).items :=
  crossCheck_order (.plainText ["foo", "bar"]) (.plainText ["bar"]) none
    ⟨[.line "bar"], [.line "foo"], 1, 1, 2, "Line Content"⟩ rfl

/-- C3: a File A record whose value at the effective key is absent
(`undefined`), `null`, or the empty string is always routed to `missing`
and never to `matched`; and the empty string is never a member of File
B's lookup set, so an empty key value can never match. -/
theorem crossCheck_empty_value_missing (a b : Content) (sel : Option String) (r : CheckOk)
    (h : crossCheck a b sel = .ok r) (hB : b.size ≠ 0) :
    "" ∉ lookupSet b r.comparisonColumn ∧
      ∀ it ∈ a.items,
        (itemValue r.comparisonColumn it = .undefined ∨
          itemValue r.comparisonColumn it = .null ∨
          itemValue r.comparisonColumn it = .str "") →
        it ∈ r.missing ∧ it ∉ r.found := by
  refine ⟨empty_not_mem_lookupSet b _, ?_⟩
  rcases crossCheck_ok_elim a b sel r h with ⟨key, hres, hcol, hcase⟩
  rcases hcase with ⟨ha0, _⟩ | ⟨_, hb0, _⟩ | ⟨_, _, hr⟩
  · intro it hit
    rw [items_eq_nil_of_size a ha0] at hit
    exact absurd hit (List.not_mem_nil it)
  · exact absurd hb0 hB
  · subst hr
    intro it hit hempty
    have hne : (itemValue key it).nonEmpty = false :=
      value_emptyish_nonEmpty_false _ hempty
    have hp : foundPred (lookupSet b key) key it = false := by
      simp [foundPred, hne]
    constructor
    · exact List.mem_filter.mpr ⟨hit, by simp [hp]⟩
    · intro hmem
      have h2 := (List.mem_filter.mp hmem).2
      simp [hp] at h2

theorem crossCheck_empty_value_missing_witness :
    "" ∉ lookupSet (.structured ["k"] [[("k", Value.str "x")]]) "k" ∧
      ∀ it ∈ (Content.structured ["k"] [[("k", Value.str "")]]).items,
        (itemValue "k" it = .undefined ∨ itemValue "k" it = .null ∨ itemValue "k" it = .str "") →
        it ∈ [Item.row [("k", Value.str "")]] ∧ it ∉ ([] : List Item) :=
  crossCheck_empty_value_missing (.structured ["k"] [[("k", Value.str "")]])
    (.structured ["k"] [[("k", Value.str "x")]]) (some "k")
    ⟨[], [Item.row [("k", Value.str "")]], 0, 1, 1, "k"⟩ rfl (by decide)

theorem crossCheck_eq_of_resolve (a b : Content) (sel : Option String) (key : String)
    (hres : resolveKey a b sel = some key) :
    crossCheck a b sel =
      (if a.size = 0 then .ok ⟨[], [], 0, 0, 0, key⟩
       else if b.size = 0 then .ok ⟨[], [], 0, 0, a.size, key⟩
       else
         let fm := partitionLoop (lookupSet b key) key a.items
         .ok ⟨fm.1, fm.2, fm.1.length, fm.2.length, a.size, key⟩) := by
  unfold crossCheck
  rw [hres]

theorem crossCheck_eq_keyError_of_resolve (a b : Content) (sel : Option String)
    (hres : resolveKey a b sel = none) :
    crossCheck a b sel = .keyError sel := by
  unfold crossCheck
  rw [hres]

theorem resolveKey_of_plaintext (a b : Content) (sel : Option String)
    (h : a.isStructured = false ∨ b.isStructured = false) :
    resolveKey a b sel = some "Line Content" := by
  cases a with
  | plainText lines => exact resolveKey_plaintext_left _ _ _
  | structured ha ra =>
    cases b with
    | plainText lines => exact resolveKey_plaintext_right _ _ _
    | structured hb rb => simp [Content.isStructured] at h

/-- C2: for structured–structured reconciliation with a resolved key and
both files non-empty, membership in `matched` is decided exactly by
string-coerced equality of key values: a File A record is matched iff its
key value passes the non-empty guard and some File B record holds a
non-empty key value with the same `String(...)` form — never by typed
equality. -/
theorem crossCheck_string_coercion (ha : List String) (ra : List Obj)
    (hb : List String) (rb : List Obj) (c : String) (r : CheckOk)
    (h : crossCheck (.structured ha ra) (.structured hb rb) (some c) = .ok r)
    (hA : ra ≠ []) (hB : rb ≠ []) (oa : Obj) (hoa : oa ∈ ra) :
    Item.row oa ∈ r.found ↔
      (objGet oa c).nonEmpty = true ∧
        ∃ ob ∈ rb, (objGet ob c).nonEmpty = true ∧
          (objGet ob c).toStr = (objGet oa c).toStr := by
  rcases crossCheck_ok_elim _ _ _ r h with ⟨key, hres, hcol, hcase⟩
  have hkey : key = c := by
    rw [resolveKey_structured] at hres
    by_cases hc : ha.contains c
    · rw [if_pos hc] at hres
      injection hres with h'
      exact h'.symm
    · rw [if_neg hc] at hres
      exact absurd hres (by simp)
  subst hkey
  rcases hcase with ⟨ha0, _⟩ | ⟨_, hb0, _⟩ | ⟨_, _, hr⟩
  · exact absurd (List.length_eq_zero.mp ha0) hA
  · exact absurd (List.length_eq_zero.mp hb0) hB
  · subst hr
    constructor
    · intro hmem
      have h2 := (List.mem_filter.mp hmem).2
      simp only [foundPred, itemValue, Bool.and_eq_true] at h2
      obtain ⟨hne, hcont⟩ := h2
      refine ⟨hne, ?_⟩
      have hmem2 := (contains_iff_mem _ _).mp hcont
      rw [mem_lookupSet] at hmem2
      obtain ⟨it, hit, h1, heq⟩ := hmem2
      simp only [Content.items, List.mem_map] at hit
      obtain ⟨ob, hob, rfl⟩ := hit
      exact ⟨ob, hob, by simpa [itemValue] using h1, by simpa [itemValue] using heq⟩
    · rintro ⟨hne, ob, hob, hbne, heq⟩
      refine List.mem_filter.mpr ⟨?_, ?_⟩
      · simp only [Content.items, List.mem_map]
        exact ⟨oa, hoa, rfl⟩
      · simp only [foundPred, itemValue, Bool.and_eq_true]
        refine ⟨hne, (contains_iff_mem _ _).mpr ?_⟩
        rw [mem_lookupSet]
        refine ⟨Item.row ob, ?_, by simpa [itemValue] using hbne,
          by simpa [itemValue] using heq⟩
        simp only [Content.items, List.mem_map]
        exact ⟨ob, hob, rfl⟩

theorem crossCheck_string_coercion_witness :
    Item.row [("k", Value.num 5)] ∈ [Item.row [("k", Value.num 5)]] ↔
      (objGet [("k", Value.num 5)] "k").nonEmpty = true ∧
        ∃ ob ∈ [[("k", Value.str "5")]], (objGet ob "k").nonEmpty = true ∧
          (objGet ob "k").toStr = (objGet [("k", Value.num 5)] "k").toStr :=
  crossCheck_string_coercion ["k"] [[("k", Value.num 5)]] ["k"] [[("k", Value.str "5")]] "k"
    ⟨[Item.row [("k", Value.num 5)]], [], 1, 0, 1, "k"⟩ rfl
    (by decide) (by decide) [("k", Value.num 5)] (by decide)

theorem lookupSet_ingest_not_mem (grid : List (List Value)) (c : String)
    (hc : c ∉ (ingestStructured grid).headersOf) :
    lookupSet (ingestStructured grid) c = [] := by
  cases grid with
  | nil => rfl
  | cons hd rest =>
    rw [lookupSet]
    apply foldl_lookupStep_id
    intro it hit
    simp only [ingestStructured, Content.items, List.mem_map] at hit
    obtain ⟨o, ⟨raw, hraw, rfl⟩, rfl⟩ := hit
    rw [show itemValue c (Item.row (buildRow (cleanHeaders hd) raw)) =
        objGet (buildRow (cleanHeaders hd) raw) c from rfl,
      objGet_buildRow_of_not_mem _ _ _
        (by simpa [ingestStructured, Content.headersOf] using hc)]
    rfl

/-- C4: for structured–structured inputs the handler fails with the
unknown-column error exactly when the requested key is not among File A's
headers; a key that is among A's headers but absent from an ingested File
B's headers is accepted (no error), and then yields zero matched records,
since File B's records contribute no lookup entries at that key. -/
theorem crossCheck_key_validation (ha : List String) (ra : List Obj) :
    (∀ (hb : List String) (rb : List Obj) (c : String),
       (crossCheck (.structured ha ra) (.structured hb rb) (some c) =
          .keyError (some c)) ↔ c ∉ ha) ∧
    (∀ (grid : List (List Value)) (c : String), c ∈ ha →
       c ∉ (ingestStructured grid).headersOf →
       crossCheck (.structured ha ra) (ingestStructured grid) (some c) ≠
           .keyError (some c) ∧
         ∀ r : CheckOk,
           crossCheck (.structured ha ra) (ingestStructured grid) (some c) = .ok r →
           r.found = [] ∧ r.foundCount = 0) := by
  constructor
  · intro hb rb c
    constructor
    · intro herr hmem
      have hres : resolveKey (.structured ha ra) (.structured hb rb) (some c) = some c := by
        rw [resolveKey_structured, if_pos ((contains_iff_mem ha c).mpr hmem)]
      rw [crossCheck_eq_of_resolve _ _ _ _ hres] at herr
      by_cases h1 : (Content.structured ha ra).size = 0
      · rw [if_pos h1] at herr
        exact absurd herr (by simp)
      · rw [if_neg h1] at herr
        by_cases h2 : (Content.structured hb rb).size = 0
        · rw [if_pos h2] at herr
          exact absurd herr (by simp)
        · rw [if_neg h2] at herr
          exact absurd herr (by simp)
    · intro hmem
      have hres : resolveKey (.structured ha ra) (.structured hb rb) (some c) = none := by
        rw [resolveKey_structured, if_neg (fun hc => hmem ((contains_iff_mem ha c).mp hc))]
      exact crossCheck_eq_keyError_of_resolve _ _ _ hres
  · intro grid c hmem hnot
    have hresB : ∀ b : Content, b.isStructured = true →
        resolveKey (.structured ha ra) b (some c) = some c := by
      intro b hbs
      cases b with
      | plainText lines => simp [Content.isStructured] at hbs
      | structured hb rb =>
        rw [resolveKey_structured, if_pos ((contains_iff_mem ha c).mpr hmem)]
    have hbs : (ingestStructured grid).isStructured = true := by
      cases grid <;> rfl
    have hres := hresB _ hbs
    constructor
    · rw [crossCheck_eq_of_resolve _ _ _ _ hres]
      by_cases h1 : (Content.structured ha ra).size = 0
      · rw [if_pos h1]; simp
      · rw [if_neg h1]
        by_cases h2 : (ingestStructured grid).size = 0
        · rw [if_pos h2]; simp
        · rw [if_neg h2]; simp
    · intro r hr
      rcases crossCheck_ok_elim _ _ _ r hr with ⟨key, hres2, hcol, hcase⟩
      have hkey : key = c := by
        rw [hres] at hres2
        injection hres2 with h'
        exact h'.symm
      rcases hcase with ⟨_, hr'⟩ | ⟨_, _, hr'⟩ | ⟨_, _, hr'⟩ <;> subst hr'
      · exact ⟨rfl, rfl⟩
      · exact ⟨rfl, rfl⟩
      · rw [hkey, lookupSet_ingest_not_mem grid c hnot]
        have hnil : (Content.structured ha ra).items.filter (foundPred [] c) = [] := by
          apply List.filter_eq_nil_iff.mpr
          intro it _
          simp [foundPred]
        constructor
        · exact hnil
        · show ((Content.structured ha ra).items.filter (foundPred [] c)).length = 0
          rw [hnil]
          rfl

theorem crossCheck_key_validation_witness :
    (crossCheck (.structured ["id"] [[("id", Value.str "1")]])
        (.structured ["id"] [[("id", Value.str "1")]]) (some "zzz") =
       .keyError (some "zzz")) ∧
    crossCheck (.structured ["id"] [[("id", Value.str "1")]])
        (ingestStructured [[Value.str "name"], [Value.str "x"]]) (some "id") ≠
      .keyError (some "id") ∧
    (([] : List Item) = [] ∧ (0 : Nat) = 0) :=
  ⟨((crossCheck_key_validation ["id"] [[("id", Value.str "1")]]).1
      ["id"] [[("id", Value.str "1")]] "zzz").mpr (by decide),
   ((crossCheck_key_validation ["id"] [[("id", Value.str "1")]]).2
      [[Value.str "name"], [Value.str "x"]] "id" (by decide) (by decide)).1,
   ((crossCheck_key_validation ["id"] [[("id", Value.str "1")]]).2
      [[Value.str "name"], [Value.str "x"]] "id" (by decide) (by decide)).2
     ⟨[], [Item.row [("id", Value.str "1")]], 0, 1, 1, "id"⟩ rfl⟩

/-- C6 counterexample: File A ingests to zero rows (empty structured
grid, hence no headers), File B is a non-empty structured table, and a
comparison key is requested; the handler returns the unknown-column 400
error, not a success result, because key resolution runs before the
empty-File-A short-circuit. -/
theorem crossCheck_emptyA_error_counterexample :
    (ingestStructured []).size = 0 ∧
      crossCheck (ingestStructured []) (.structured ["id"] [[("id", Value.str "1")]])
          (some "id") = .keyError (some "id") :=
  ⟨rfl, rfl⟩

/-- C6 (amended): when File A ingests to zero rows AND key resolution
succeeds (either table is plain text, or the requested key is among File
A's headers), the handler returns a success result with both partitions
empty and counts `(0, 0)`. -/
theorem crossCheck_emptyA_success (a b : Content) (sel : Option String) (key : String)
    (hA : a.size = 0) (hres : resolveKey a b sel = some key) :
    crossCheck a b sel = .ok ⟨[], [], 0, 0, 0, key⟩ := by
  rw [crossCheck_eq_of_resolve a b sel key hres, if_pos hA]

theorem crossCheck_emptyA_success_witness :
    crossCheck (.structured [] []) (.plainText ["x"]) (some "whatever") =
      .ok ⟨[], [], 0, 0, 0, "Line Content"⟩ :=
  crossCheck_emptyA_success _ _ _ _ rfl rfl

/-- C7: when at least one table is plain text, the comparison key is
forced to the `"Line Content"` sentinel: key resolution never fails, the
result is independent of the requested key, the reported comparison
column is `"Line Content"`, and a plain-text File A line is matched
exactly when its full text (non-empty) is a member of File B's lookup
set. -/
theorem crossCheck_plaintext_key (a b : Content) (sel sel' : Option String)
    (h : a.isStructured = false ∨ b.isStructured = false) :
    resolveKey a b sel = some "Line Content" ∧
    crossCheck a b sel = crossCheck a b sel' ∧
    (∀ r, crossCheck a b sel = .ok r → r.comparisonColumn = "Line Content") ∧
    (∀ lines, a = .plainText lines → b.size ≠ 0 → ∀ r, crossCheck a b sel = .ok r →
      ∀ l, (Item.line l ∈ r.found ↔
        l ∈ lines ∧ l ≠ "" ∧ l ∈ lookupSet b "Line Content")) := by
  have hres := resolveKey_of_plaintext a b sel h
  refine ⟨hres, ?_, ?_, ?_⟩
  · rw [crossCheck_eq_of_resolve a b sel _ hres,
      crossCheck_eq_of_resolve a b sel' _ (resolveKey_of_plaintext a b sel' h)]
  · intro r hok
    rcases crossCheck_ok_elim _ _ _ r hok with ⟨key, hres2, hcol, _⟩
    rw [hres] at hres2
    injection hres2 with h'
    rw [hcol, ← h']
  · intro lines ha0 hB r hok l
    subst ha0
    rcases crossCheck_ok_elim _ _ _ r hok with ⟨key, hres2, hcol, hcase⟩
    rw [hres] at hres2
    injection hres2 with h'
    subst h'
    rcases hcase with ⟨ha0, hr⟩ | ⟨_, hb0, _⟩ | ⟨_, _, hr⟩
    · subst hr
      have hl : lines = [] := by
        have := items_eq_nil_of_size _ ha0
        simpa [Content.items] using this
      subst hl
      simp
    · exact absurd hb0 hB
    · subst hr
      show Item.line l ∈ (Content.plainText lines).items.filter _ ↔ _
      rw [List.mem_filter]
      constructor
      · rintro ⟨hmem, hp⟩
        simp only [Content.items, List.mem_map] at hmem
        obtain ⟨l', hl', he⟩ := hmem
        injection he with he'
        subst he'
        simp only [foundPred, itemValue, Value.nonEmpty, Value.toStr,
          Bool.and_eq_true, bne_iff_ne, ne_eq] at hp
        exact ⟨hl', hp.1, (contains_iff_mem _ _).mp hp.2⟩
      · rintro ⟨hmem, hne, hset⟩
        refine ⟨?_, ?_⟩
        · simp only [Content.items, List.mem_map]
          exact ⟨l, hmem, rfl⟩
        · simp only [foundPred, itemValue, Value.nonEmpty, Value.toStr,
            Bool.and_eq_true, bne_iff_ne, ne_eq]
          exact ⟨hne, (contains_iff_mem _ _).mpr hset⟩

theorem crossCheck_plaintext_key_witness :
    resolveKey (.plainText ["foo", "bar"]) (.plainText ["bar"]) (some "zzz") =
        some "Line Content" ∧
      crossCheck (.plainText ["foo", "bar"]) (.plainText ["bar"]) (some "zzz") =
        crossCheck (.plainText ["foo", "bar"]) (.plainText ["bar"]) none ∧
      "Line Content" = "Line Content" ∧
      (Item.line "bar" ∈ [Item.line "bar"] ↔
        "bar" ∈ ["foo", "bar"] ∧ "bar" ≠ "" ∧
          "bar" ∈ lookupSet (.plainText ["bar"]) "Line Content") := by
  have h := crossCheck_plaintext_key (.plainText ["foo", "bar"]) (.plainText ["bar"])
    (some "zzz") none (Or.inl rfl)
  exact ⟨h.1, h.2.1,
    h.2.2.1 ⟨[.line "bar"], [.line "foo"], 1, 1, 2, "Line Content"⟩ rfl,
    h.2.2.2 ["foo", "bar"] rfl (by decide)
      ⟨[.line "bar"], [.line "foo"], 1, 1, 2, "Line Content"⟩ rfl "bar"⟩

/-- C9 counterexample: a header row with the same non-blank name twice
ingests to a column list with a duplicate — the ingestor drops blanks but
does not deduplicate. -/
theorem ingest_duplicate_columns_counterexample :
    (ingestStructured [[Value.str "id", Value.str "id"]]).headersOf = ["id", "id"] ∧
      ¬ ((ingestStructured [[Value.str "id", Value.str "id"]]).headersOf).Nodup :=
  ⟨rfl, by decide⟩

/-- C9 (amended): every column name produced by structured ingestion is
non-blank and already trimmed (so in particular not whitespace-only) —
blank and whitespace-only header cells are dropped — but duplicate
non-blank header names are preserved, not deduplicated. -/
theorem ingest_columns_nonblank (grid : List (List Value)) :
    ∀ h ∈ (ingestStructured grid).headersOf, h ≠ "" ∧ jsTrim h = h := by
  cases grid with
  | nil =>
    intro h hh
    simp [ingestStructured, Content.headersOf] at hh
  | cons hd rest =>
    intro h hh
    simp only [ingestStructured, Content.headersOf] at hh
    simp only [cleanHeaders, List.mem_filter, List.mem_map] at hh
    obtain ⟨⟨v, hv, hmap⟩, hnb⟩ := hh
    refine ⟨by simpa using hnb, ?_⟩
    rw [← hmap]
    simp only [headerText]
    exact jsTrim_idem _

theorem ingest_columns_nonblank_witness :
    "id" ∈ (ingestStructured [[Value.str " id "]]).headersOf ∧
      ("id" ≠ "" ∧ jsTrim "id" = "id") :=
  ⟨by decide, ingest_columns_nonblank [[Value.str " id "]] "id" (by decide)⟩

/-- A value of string type (or one of the two absent markers, which both
variants filter out identically). -/
def strLike : Value → Bool
  | .str _ => true
  | .undefined => true
  | .null => true
  | .num _ => false
  | .bool _ => false

theorem contains_toStr_map (set2h : List Value) (s : String)
    (hset : ∀ v ∈ set2h, ∃ t, v = Value.str t) :
    (set2h.map Value.toStr).contains s = set2h.contains (Value.str s) := by
  by_cases hmem : Value.str s ∈ set2h
  · have h1 : s ∈ set2h.map Value.toStr := List.mem_map.mpr ⟨_, hmem, rfl⟩
    rw [(contains_iff_mem _ _).mpr h1, (contains_iff_mem _ _).mpr hmem]
  · have h1 : s ∉ set2h.map Value.toStr := by
      intro hc
      rcases List.mem_map.mp hc with ⟨v, hv, hvs⟩
      rcases hset v hv with ⟨t, rfl⟩
      rw [show (Value.str t).toStr = t from rfl] at hvs
      exact hmem (hvs ▸ hv)
    cases hc1 : (set2h.map Value.toStr).contains s with
    | true => exact absurd ((contains_iff_mem _ _).mp hc1) h1
    | false =>
      cases hc2 : set2h.contains (Value.str s) with
      | true => exact absurd ((contains_iff_mem _ _).mp hc2) hmem
      | false => rfl

theorem hist_lookup_rel (key : String) :
    ∀ (items : List Item) (acc2 : List Value),
      (∀ it ∈ items, strLike (itemValue key it) = true) →
      (∀ v ∈ acc2, ∃ s, v = Value.str s) →
      (items.foldl (lookupStep key) (acc2.map Value.toStr) =
        (items.foldl (histLookupStep key) acc2).map Value.toStr) ∧
      (∀ v ∈ items.foldl (histLookupStep key) acc2, ∃ s, v = Value.str s) := by
  intro items
  induction items with
  | nil => intro acc2 _ hacc; exact ⟨rfl, hacc⟩
  | cons x xs ih =>
    intro acc2 hstr hacc
    have hx := hstr x (List.mem_cons_self _ _)
    have htail : ∀ it ∈ xs, strLike (itemValue key it) = true :=
      fun it hit => hstr it (List.mem_cons_of_mem _ hit)
    rw [List.foldl_cons, List.foldl_cons]
    cases hv : itemValue key x with
    | undefined =>
      have h1 : lookupStep key (acc2.map Value.toStr) x = acc2.map Value.toStr := by
        simp [lookupStep, hv, Value.nonEmpty]
      have h2 : histLookupStep key acc2 x = acc2 := by
        simp [histLookupStep, hv, Value.nonEmpty]
      rw [h1, h2]
      exact ih acc2 htail hacc
    | null =>
      have h1 : lookupStep key (acc2.map Value.toStr) x = acc2.map Value.toStr := by
        simp [lookupStep, hv, Value.nonEmpty]
      have h2 : histLookupStep key acc2 x = acc2 := by
        simp [histLookupStep, hv, Value.nonEmpty]
      rw [h1, h2]
      exact ih acc2 htail hacc
    | num n => rw [hv] at hx; exact absurd hx (by simp [strLike])
    | bool bv => rw [hv] at hx; exact absurd hx (by simp [strLike])
    | str s =>
      by_cases hne : s = ""
      · subst hne
        have h1 : lookupStep key (acc2.map Value.toStr) x = acc2.map Value.toStr := by
          simp [lookupStep, hv, Value.nonEmpty]
        have h2 : histLookupStep key acc2 x = acc2 := by
          simp [histLookupStep, hv, Value.nonEmpty]
        rw [h1, h2]
        exact ih acc2 htail hacc
      · have hnes : (Value.str s).nonEmpty = true := by
          simp [Value.nonEmpty, hne]
        have h1 : lookupStep key (acc2.map Value.toStr) x =
            addUnique (acc2.map Value.toStr) s := by
          simp [lookupStep, hv, hnes, Value.toStr]
        have hcont := contains_toStr_map acc2 s hacc
        by_cases hmem : acc2.contains (Value.str s)
        · have h2 : histLookupStep key acc2 x = acc2 := by
            simp only [histLookupStep, hv, hnes, if_true]
            rw [if_pos hmem]
          have h1' : lookupStep key (acc2.map Value.toStr) x = acc2.map Value.toStr := by
            rw [h1, addUnique, if_pos (hcont ▸ hmem)]
          rw [h1', h2]
          exact ih acc2 htail hacc
        · have h2 : histLookupStep key acc2 x = acc2 ++ [Value.str s] := by
            simp only [histLookupStep, hv, hnes, if_true]
            rw [if_neg hmem]
          have h1' : lookupStep key (acc2.map Value.toStr) x =
              (acc2 ++ [Value.str s]).map Value.toStr := by
            rw [h1, addUnique, if_neg (fun hc => hmem (hcont ▸ hc))]
            simp [Value.toStr]
          rw [h1', h2]
          refine ih (acc2 ++ [Value.str s]) htail ?_
          intro v hvmem
          rcases List.mem_append.mp hvmem with hvmem' | hvmem'
          · exact hacc v hvmem'
          · exact ⟨s, List.mem_singleton.mp hvmem'⟩

theorem partition_loops_agree (key : String) (set2h : List Value)
    (hset : ∀ v ∈ set2h, ∃ s, v = Value.str s) :
    ∀ (data : List Item) (acc : List Item × List Item),
      (∀ it ∈ data, strLike (itemValue key it) = true) →
      data.foldl (stepFn (set2h.map Value.toStr) key) acc =
        data.foldl (histStepFn set2h key) acc := by
  intro data
  induction data with
  | nil => intro acc _; rfl
  | cons x xs ih =>
    intro acc hstr
    have hx := hstr x (List.mem_cons_self _ _)
    rw [List.foldl_cons, List.foldl_cons]
    have hstep : stepFn (set2h.map Value.toStr) key acc x = histStepFn set2h key acc x := by
      cases hv : itemValue key x with
      | undefined => simp [stepFn, histStepFn, hv, Value.nonEmpty]
      | null => simp [stepFn, histStepFn, hv, Value.nonEmpty]
      | num n => rw [hv] at hx; exact absurd hx (by simp [strLike])
      | bool bv => rw [hv] at hx; exact absurd hx (by simp [strLike])
      | str s =>
        by_cases hne : s = ""
        · subst hne
          simp [stepFn, histStepFn, hv, Value.nonEmpty]
        · have hnes : (Value.str s).nonEmpty = true := by
            simp [Value.nonEmpty, hne]
          simp only [stepFn, histStepFn, hv, hnes, if_true]
          rw [show (Value.str s).toStr = s from rfl,
            contains_toStr_map set2h s hset]
    rw [hstep]
    exact ih _ (fun it hit => hstr it (List.mem_cons_of_mem _ hit))

/-- C10 counterexample: the two variants disagree on the same ingested
tables and key — File A holds the number `5`, File B the string `"5"`;
the primary variant matches the row (string coercion), the historical
variant reports it missing (typed `Set` membership). -/
theorem partition_variants_differ_counterexample :
    primPartition (.structured ["k"] [[("k", Value.num 5)]])
        (.structured ["k"] [[("k", Value.str "5")]]) "k" =
      ([Item.row [("k", Value.num 5)]], []) ∧
    histPartition (.structured ["k"] [[("k", Value.num 5)]])
        (.structured ["k"] [[("k", Value.str "5")]]) "k" =
      ([], [Item.row [("k", Value.num 5)]]) ∧
    primPartition (.structured ["k"] [[("k", Value.num 5)]])
        (.structured ["k"] [[("k", Value.str "5")]]) "k" ≠
      histPartition (.structured ["k"] [[("k", Value.num 5)]])
        (.structured ["k"] [[("k", Value.str "5")]]) "k" := by
  refine ⟨rfl, rfl, ?_⟩
  decide

/-- C10 (amended): given the same two ingested tables and the same
effective comparison key, the two variants' partition logic produces
identical matched and missing sequences whenever every key value in both
tables is of string type (in particular, always for plain-text tables);
with mixed-type key values they can differ, because the primary variant
compares `String(...)`-coerced values while the historical variant uses
typed `Set` membership. -/
theorem partition_variants_agree (a b : Content) (key : String)
    (hA : ∀ it ∈ a.items, strLike (itemValue key it) = true)
    (hB : ∀ it ∈ b.items, strLike (itemValue key it) = true) :
    primPartition a b key = histPartition a b key := by
  have hrel := hist_lookup_rel key b.items [] hB (by simp)
  have hsets : lookupSet b key = (histLookupSet b key).map Value.toStr := by
    have h1 := hrel.1
    simpa [lookupSet, histLookupSet] using h1
  unfold primPartition histPartition partitionLoop histPartitionLoop
  rw [hsets]
  exact partition_loops_agree key (histLookupSet b key) hrel.2 a.items ([], []) hA

theorem partition_variants_agree_witness :
    primPartition (.plainText ["a", "b"]) (.plainText ["b"]) "Line Content" =
      histPartition (.plainText ["a", "b"]) (.plainText ["b"]) "Line Content" :=
  partition_variants_agree (.plainText ["a", "b"]) (.plainText ["b"]) "Line Content"
    (by decide) (by decide)

end FileCrossCheck
